import Mathlib

/-!
Shallow embedding of the `simplenoc` simulator (a cycle-driven NoC with a
directory-based cache-coherence protocol) and proofs about the claims of its
specification.

Modelling conventions, mirroring the Python source:
* Node names and page identifiers are natural numbers (the source uses strings
  for names and ints for pages; only equality of names is ever used).
* `Directory.flags` is a `defaultdict(int)`: an insertion-ordered association
  list whose keys are inserted on first read (`__getitem__` on a missing key
  stores the default `0`).  This key-insertion behaviour is observable through
  `Directory.evict`, which iterates over the keys of the dict.
* Python `set`s of names are insertion-ordered duplicate-free lists; iterating
  over a set while it is resized raises `RuntimeError`, modelled by a size
  check at every step of the loops of `invalidate` / `read_invalidate`.
* Exceptions (`AssertionError`, `KeyError`, `IndexError`, `RuntimeError`, the
  `UnboundLocalError` escaping `Packet.__repr__`, `ValueError`) abort the
  computation through the `Except Err` monad.  A diverging loop (the victim
  scan of `evict` when every resident page is homed) is modelled by fuel
  exhaustion.
* `Router.message` delivers a packet addressed to the owning node by invoking
  `handle` synchronously (re-entrant recursion, bounded by fuel); any other
  packet is looked up in the routing table and appended to the NoC's
  in-transit queue (the `sends` accumulator).  Every packet that goes through
  `Router.message` is also recorded in the `emitted` trace.
-/

namespace SimpleNoC

/-- Error kinds with which the simulator can abort, one per Python exception
observed in the source. -/
inductive Err where
  | assertionError
  | keyError
  | indexError
  | runtimeError
  | unboundLocal
  | valueError
  | fuelExhausted
deriving DecidableEq

/-- A packet of the NoC: `action` is one of the fourteen numeric kinds below,
`page` the page identifier, `source`/`destination` the logical endpoints and
`embedded` an optional third-party node name. -/
structure Packet where
  action : Nat
  page : Nat
  source : Nat
  destination : Nat
  embedded : Option Nat := none
deriving DecidableEq

namespace Packet

def READ_MISS : Nat := 0
def REPLY : Nat := 1
def REMOTE_READ : Nat := 2
def REMOTE_REPLY : Nat := 3
def INVALIDATE : Nat := 4
def INVALIDATE_ACKNOWLEDGE : Nat := 5
def REMOTE_INVALIDATE : Nat := 6
def REMOTE_INVALIDATE_ACKNOWLEDGE : Nat := 7
def READ_INVALIDATE : Nat := 8
def READ_INVALIDATE_ACKNOWLEDGE : Nat := 9
def REMOTE_READ_INVALIDATE : Nat := 10
def REMOTE_READ_INVALIDATE_ACKNOWLEDGE : Nat := 11
def EVICTION_SAVE : Nat := 12
def EVICTION_NOTICE : Nat := 13

end Packet

/-- `Packet.__repr__` resolves the textual name of the action through a chain
of fourteen comparisons; on an unknown action the local variable holding the
name is never assigned and the formatting raises `UnboundLocalError`.  We model
the name by its numeric tag and the unknown case by `none`. -/
def actionName (a : Nat) : Option Nat :=
  if a = Packet.READ_MISS then some a
  else if a = Packet.REPLY then some a
  else if a = Packet.REMOTE_READ then some a
  else if a = Packet.REMOTE_REPLY then some a
  else if a = Packet.INVALIDATE then some a
  else if a = Packet.INVALIDATE_ACKNOWLEDGE then some a
  else if a = Packet.REMOTE_INVALIDATE then some a
  else if a = Packet.REMOTE_INVALIDATE_ACKNOWLEDGE then some a
  else if a = Packet.READ_INVALIDATE then some a
  else if a = Packet.READ_INVALIDATE_ACKNOWLEDGE then some a
  else if a = Packet.REMOTE_READ_INVALIDATE then some a
  else if a = Packet.REMOTE_READ_INVALIDATE_ACKNOWLEDGE then some a
  else if a = Packet.EVICTION_SAVE then some a
  else if a = Packet.EVICTION_NOTICE then some a
  else none

/-- Update-or-append for an insertion-ordered association list (a Python dict
`__setitem__`). -/
def setEntry {α : Type} : List (Nat × α) → Nat → α → List (Nat × α)
  | [], p, v => [(p, v)]
  | (q, w) :: rest, p, v =>
      if q = p then (p, v) :: rest else (q, w) :: setEntry rest p v

/-- The per-node directory: flag values are `0` (INVALID), `1` (SHARED),
`2` (MODIFIED).  `presence` has exactly the homed pages as keys at
construction time. -/
structure Directory where
  name : Nat
  size : Nat
  homed_pages : List Nat
  lru : List Nat
  flags : List (Nat × Nat)
  presence : List (Nat × List Nat)
deriving DecidableEq

namespace Directory

/-- The flag of a page as a pure observation (missing key reads as 0). -/
def flagVal (d : Directory) (p : Nat) : Nat := (List.lookup p d.flags).getD 0

/-- `self.flags[page]` on the defaultdict: returns the value and inserts the
key with default `0` when missing. -/
def getFlag (d : Directory) (p : Nat) : Nat × Directory :=
  match List.lookup p d.flags with
  | some v => (v, d)
  | none => (0, { d with flags := d.flags ++ [(p, 0)] })

/-- `self.flags[page] = v`. -/
def setFlag (d : Directory) (p v : Nat) : Directory :=
  { d with flags := setEntry d.flags p v }

/-- The presence set of a page, when the page is a key of the dictionary. -/
def presVal (d : Directory) (p : Nat) : Option (List Nat) :=
  List.lookup p d.presence

/-- `Directory.has`: the flag getitem (which may insert the key) compared
against INVALID. -/
def has (d : Directory) (p : Nat) : Bool × Directory :=
  let (v, d) := d.getFlag p
  (v != 0, d)

/-- `Directory.is_modified`. -/
def is_modified (d : Directory) (p : Nat) : Bool × Directory :=
  let (v, d) := d.getFlag p
  (v == 2, d)

/-- `Directory.dirty`: assert `has`, then set the flag to INVALID. -/
def dirty (d : Directory) (p : Nat) : Except Err Directory :=
  let (h, d) := d.has p
  if h then .ok (d.setFlag p 0) else .error .assertionError

/-- `Directory.modify`: assert `has`, then set the flag to MODIFIED. -/
def modify (d : Directory) (p : Nat) : Except Err Directory :=
  let (h, d) := d.has p
  if h then .ok (d.setFlag p 2) else .error .assertionError

/-- `Directory.share`: assert `has`, then set the flag to SHARED. -/
def share (d : Directory) (p : Nat) : Except Err Directory :=
  let (h, d) := d.has p
  if h then .ok (d.setFlag p 1) else .error .assertionError

/-- `Directory.add_presence`: `self.presence[page].add(node)` (KeyError when
the page is not a key of the presence dictionary). -/
def add_presence (d : Directory) (p n : Nat) : Except Err Directory :=
  match d.presVal p with
  | none => .error .keyError
  | some l =>
      .ok { d with presence := setEntry d.presence p (if n ∈ l then l else l ++ [n]) }

/-- `Directory.erase_presence`: `self.presence[page].remove(node)` (KeyError
when the page is not a key or the node is not in the set). -/
def erase_presence (d : Directory) (p n : Nat) : Except Err Directory :=
  match d.presVal p with
  | none => .error .keyError
  | some l =>
      if n ∈ l then
        .ok { d with presence := setEntry d.presence p (l.erase n) }
      else .error .keyError

/-- `Directory.copy_holders`: assert the page is homed here, then return the
presence set. -/
def copy_holders (d : Directory) (p : Nat) : Except Err (List Nat) :=
  if p ∈ d.homed_pages then
    match d.presVal p with
    | none => .error .keyError
    | some l => .ok l
  else .error .assertionError

/-- `Directory.owner`: assert homed; if the flag is INVALID return the unique
presence member (asserting uniqueness), else the node's own name. -/
def owner (d : Directory) (p : Nat) : Except Err (Nat × Directory) :=
  if p ∈ d.homed_pages then
    let (v, d) := d.getFlag p
    if v = 0 then
      match d.presVal p with
      | none => .error .keyError
      | some [x] => .ok (x, d)
      | some _ => .error .assertionError
    else .ok (d.name, d)
  else .error .assertionError

end Directory

/-- The mutable state of one node: its directory, remaining program, frozen
and locked page sets and the awaiting queue. -/
structure NodeState where
  name : Nat
  table : List (Nat × Nat)
  dir : Directory
  program : List (List Nat)
  frozen : List Nat
  locked : List Nat
  awaiting : List Packet
deriving DecidableEq

/-- Execution state threaded through a node's handler calls: the node itself,
the packets handed to the NoC (`sends`, paired with their next hop) and the
trace of every packet passed through `Router.message` (`emitted`). -/
structure St where
  node : NodeState
  sends : List (Packet × Nat)
  emitted : List Packet
deriving DecidableEq

/-- Replace the directory of the node under execution. -/
def St.withDir (st : St) (d : Directory) : St :=
  { st with node := { st.node with dir := d } }

/-- Append a deferred packet to the awaiting queue. -/
def St.defer (st : St) (p : Packet) : St :=
  { st with node := { st.node with awaiting := st.node.awaiting ++ [p] } }

/-- `self.frozen.add(page)` (set insertion). -/
def St.freeze (st : St) (page : Nat) : St :=
  { st with node := { st.node with frozen :=
      if page ∈ st.node.frozen then st.node.frozen else st.node.frozen ++ [page] } }

/-- Short-circuiting `all(self.directory.has(ip) for ip in input_pages)`,
threading the key-inserting reads of the defaultdict. -/
def allHas : Directory → List Nat → Bool × Directory
  | d, [] => (true, d)
  | d, p :: rest =>
      let (h, d) := d.has p
      if h then allHas d rest else (false, d)

/-- `Node.try_operation`: read the output page off the end of the locked list
(IndexError when empty), check that every input is held and the output is held
MODIFIED, and clear the locked list when both hold. -/
def tryOperation (s : NodeState) : Except Err NodeState :=
  match s.locked.getLast? with
  | none => .error .indexError
  | some output =>
      let inputs := s.locked.dropLast
      let (input_ready, d) := allHas s.dir inputs
      let (h, d) := d.has output
      let (m, d) := if h then d.is_modified output else (false, d)
      let s := { s with dir := d }
      if input_ready && (h && m) then .ok { s with locked := [] } else .ok s

/-- Lift a directory-level (or helper-level) result into the executor's
monad, attaching the execution state at the point of the raise (a Python
exception propagates while the mutations already performed remain visible). -/
def elift {α : Type} (st : St) : Except Err α → Except (Err × St) α
  | .ok a => .ok a
  | .error e => .error (e, st)

/-- The call graph of a node's handler execution: router dispatch, the
fourteen handlers, the directory operations that can emit packets, and the
loops of the source rendered as explicit recursion. -/
inductive Call where
  | message (p : Packet)
  | handle (p : Packet)
  | read_miss (p : Packet)
  | reply (p : Packet)
  | remote_read (p : Packet)
  | remote_reply (p : Packet)
  | invalidate (p : Packet)
  | invalidate_acknowledge (p : Packet)
  | remote_invalidate (p : Packet)
  | remote_invalidate_acknowledge (p : Packet)
  | read_invalidate (p : Packet)
  | read_invalidate_acknowledge (p : Packet)
  | remote_read_invalidate (p : Packet)
  | remote_read_invalidate_acknowledge (p : Packet)
  | eviction_save (p : Packet)
  | eviction_notice (p : Packet)
  | send_home (page : Nat)
  | notify_home (page : Nat)
  | dirAdd (page : Nat)
  | dirEvict
  | evictLoop (picked : Nat)
  | invLoop (p : Packet) (rest : List Nat) (n0 : Nat)
  | riLoop (p : Packet) (rest : List Nat) (n0 : Nat)
  | operation (inputs : List Nat) (output : Nat)
  | opLoop (inputs : List Nat) (output : Nat)
  | opOutput (output : Nat)
  | dirInit (pages : List Nat)

/-- One step of a node's execution.  `hm` is the NoC's page-to-home map
(`NoC.get_home_node`), consulted by `operation`, `send_home` and
`notify_home`.  Recursion (the router delivering a packet back to the same
node) is bounded by the fuel. -/
def exec : Nat → List (Nat × Nat) → Call → St → Except (Err × St) St
  | 0, _, _, st => .error (.fuelExhausted, st)
  | fuel+1, hm, c, st =>
    match c with
    | .message p =>
      let st := { st with emitted := st.emitted ++ [p] }
      if p.destination = st.node.name then
        exec fuel hm (.handle p) st
      else
        match List.lookup p.destination st.node.table with
        | none => .error (.keyError, st)
        | some next => .ok { st with sends := st.sends ++ [(p, next)] }
    | .handle p =>
      if p.destination ≠ st.node.name then .error (.assertionError, st)
      else if p.action = Packet.READ_MISS then exec fuel hm (.read_miss p) st
      else if p.action = Packet.REPLY then exec fuel hm (.reply p) st
      else if p.action = Packet.REMOTE_READ then exec fuel hm (.remote_read p) st
      else if p.action = Packet.REMOTE_REPLY then exec fuel hm (.remote_reply p) st
      else if p.action = Packet.INVALIDATE then exec fuel hm (.invalidate p) st
      else if p.action = Packet.INVALIDATE_ACKNOWLEDGE then
        exec fuel hm (.invalidate_acknowledge p) st
      else if p.action = Packet.REMOTE_INVALIDATE then
        exec fuel hm (.remote_invalidate p) st
      else if p.action = Packet.REMOTE_INVALIDATE_ACKNOWLEDGE then
        exec fuel hm (.remote_invalidate_acknowledge p) st
      else if p.action = Packet.READ_INVALIDATE then
        exec fuel hm (.read_invalidate p) st
      else if p.action = Packet.READ_INVALIDATE_ACKNOWLEDGE then
        exec fuel hm (.read_invalidate_acknowledge p) st
      else if p.action = Packet.REMOTE_READ_INVALIDATE then
        exec fuel hm (.remote_read_invalidate p) st
      else if p.action = Packet.REMOTE_READ_INVALIDATE_ACKNOWLEDGE then
        exec fuel hm (.remote_read_invalidate_acknowledge p) st
      else if p.action = Packet.EVICTION_SAVE then exec fuel hm (.eviction_save p) st
      else if p.action = Packet.EVICTION_NOTICE then exec fuel hm (.eviction_notice p) st
      else
        match actionName p.action with
        | some _ => .error (.valueError, st)
        | none => .error (.unboundLocal, st)
    | .read_miss p =>
      if p.action ≠ Packet.READ_MISS then .error (.assertionError, st)
      else if p.page ∈ st.node.frozen then .ok (st.defer p)
      else
        let (h, d) := st.node.dir.has p.page
        let st := st.withDir d
        if h then do
          let d ← elift st (st.node.dir.add_presence p.page p.source)
          let d ← elift st (d.share p.page)
          exec fuel hm (.message ⟨Packet.REPLY, p.page, st.node.name, p.source, none⟩) (st.withDir d)
        else do
          let (own, d) ← elift st (st.node.dir.owner p.page)
          let st ← exec fuel hm (.message ⟨Packet.REMOTE_READ, p.page, st.node.name, own, some p.source⟩) (st.withDir d)
          .ok (st.freeze p.page)
    | .reply p =>
      if p.action ≠ Packet.REPLY then .error (.assertionError, st)
      else do
        let st ← exec fuel hm (.dirAdd p.page) st
        let n ← elift st (tryOperation st.node)
        .ok { st with node := n }
    | .remote_read p =>
      if p.action ≠ Packet.REMOTE_READ then .error (.assertionError, st)
      else
        let (h, d) := st.node.dir.has p.page
        let st := st.withDir d
        if h then do
          let d ← elift st (st.node.dir.share p.page)
          exec fuel hm (.message ⟨Packet.REMOTE_REPLY, p.page, st.node.name, p.source, p.embedded⟩) (st.withDir d)
        else .error (.assertionError, st)
    | .remote_reply p =>
      if p.action ≠ Packet.REMOTE_REPLY then .error (.assertionError, st)
      else do
        let st ← exec fuel hm (.dirAdd p.page) st
        let d ← elift st (st.node.dir.add_presence p.page st.node.name)
        let st := st.withDir d
        if p.page ∈ st.node.frozen then
          let st : St := { st with node :=
            { st.node with frozen := st.node.frozen.erase p.page } }
          match p.embedded with
          | none => .error (.assertionError, st)
          | some l =>
            if l = st.node.name then do
              let n ← elift st (tryOperation st.node)
              .ok { st with node := n }
            else do
              let d ← elift st (st.node.dir.add_presence p.page l)
              exec fuel hm (.message ⟨Packet.REPLY, p.page, st.node.name, l, none⟩) (st.withDir d)
        else .error (.keyError, st)
    | .invalidate p =>
      if p.action ≠ Packet.INVALIDATE then .error (.assertionError, st)
      else
        let (h, d) := st.node.dir.has p.page
        let st := st.withDir d
        if h then
          if p.page ∈ st.node.frozen ∨ p.page ∈ st.node.locked then .ok (st.defer p)
          else do
            let holders ← elift st (st.node.dir.copy_holders p.page)
            if holders.length < 2 then .error (.assertionError, st)
            else do
              let st ← exec fuel hm (.invLoop p holders holders.length) st
              let d ← elift st (st.node.dir.dirty p.page)
              let d ← elift st (d.erase_presence p.page st.node.name)
              .ok ((st.withDir d).freeze p.page)
        else .error (.assertionError, st)
    | .invLoop p rest n0 =>
      match st.node.dir.presVal p.page with
      | none => .error (.keyError, st)
      | some cur =>
        if cur.length ≠ n0 then .error (.runtimeError, st)
        else
          match rest with
          | [] => .ok st
          | h :: t =>
            if h = p.source then exec fuel hm (.invLoop p t n0) st
            else do
              let st ← exec fuel hm (.message ⟨Packet.REMOTE_INVALIDATE, p.page, st.node.name, h, some p.source⟩) st
              exec fuel hm (.invLoop p t n0) st
    | .invalidate_acknowledge p =>
      if p.action ≠ Packet.INVALIDATE_ACKNOWLEDGE then .error (.assertionError, st)
      else do
        let d ← elift st (st.node.dir.modify p.page)
        let n ← elift st (tryOperation { st.node with dir := d })
        .ok { st with node := n }
    | .remote_invalidate p =>
      if p.action ≠ Packet.REMOTE_INVALIDATE then .error (.assertionError, st)
      else if p.page ∈ st.node.locked then .ok (st.defer p)
      else do
        let d ← elift st (st.node.dir.dirty p.page)
        exec fuel hm (.message ⟨Packet.REMOTE_INVALIDATE_ACKNOWLEDGE, p.page, st.node.name, p.source, p.embedded⟩) (st.withDir d)
    | .remote_invalidate_acknowledge p =>
      if p.action ≠ Packet.REMOTE_INVALIDATE_ACKNOWLEDGE then .error (.assertionError, st)
      else do
        let d ← elift st (st.node.dir.erase_presence p.page p.source)
        let st := st.withDir d
        let holders ← elift st (st.node.dir.copy_holders p.page)
        if holders.length = 1 then
          match p.embedded with
          | none => .error (.assertionError, st)
          | some e =>
            if e ∈ holders then do
              let st ← exec fuel hm (.message ⟨Packet.INVALIDATE_ACKNOWLEDGE, p.page, st.node.name, e, none⟩) st
              if p.page ∈ st.node.frozen then
                .ok { st with node :=
                  { st.node with frozen := st.node.frozen.erase p.page } }
              else .error (.keyError, st)
            else .error (.assertionError, st)
        else .ok st
    | .read_invalidate p =>
      if p.action ≠ Packet.READ_INVALIDATE then .error (.assertionError, st)
      else if p.page ∈ st.node.frozen ∨ p.page ∈ st.node.locked then .ok (st.defer p)
      else do
        let holders ← elift st (st.node.dir.copy_holders p.page)
        if holders.length = 1 ∧ st.node.name ∈ holders then do
          let d ← elift st (st.node.dir.dirty p.page)
          let d ← elift st (d.erase_presence p.page st.node.name)
          let d ← elift st (d.add_presence p.page p.source)
          exec fuel hm (.message ⟨Packet.READ_INVALIDATE_ACKNOWLEDGE, p.page, st.node.name, p.source, none⟩) (st.withDir d)
        else do
          let st ← exec fuel hm (.riLoop p holders holders.length) st
          .ok (st.freeze p.page)
    | .riLoop p rest n0 =>
      match st.node.dir.presVal p.page with
      | none => .error (.keyError, st)
      | some cur =>
        if cur.length ≠ n0 then .error (.runtimeError, st)
        else
          match rest with
          | [] => .ok st
          | h :: t =>
            if h = st.node.name then exec fuel hm (.riLoop p t n0) st
            else do
              let st ← exec fuel hm (.message ⟨Packet.REMOTE_READ_INVALIDATE, p.page, st.node.name, h, some p.source⟩) st
              exec fuel hm (.riLoop p t n0) st
    | .read_invalidate_acknowledge p =>
      if p.action ≠ Packet.READ_INVALIDATE_ACKNOWLEDGE then .error (.assertionError, st)
      else do
        let st ← exec fuel hm (.dirAdd p.page) st
        let d ← elift st (st.node.dir.modify p.page)
        let n ← elift st (tryOperation { st.node with dir := d })
        .ok { st with node := n }
    | .remote_read_invalidate p =>
      if p.action ≠ Packet.REMOTE_READ_INVALIDATE then .error (.assertionError, st)
      else if p.page ∈ st.node.locked then .ok (st.defer p)
      else do
        let d ← elift st (st.node.dir.dirty p.page)
        exec fuel hm (.message ⟨Packet.REMOTE_READ_INVALIDATE_ACKNOWLEDGE, p.page, st.node.name, p.source, p.embedded⟩) (st.withDir d)
    | .remote_read_invalidate_acknowledge p =>
      if p.action ≠ Packet.REMOTE_READ_INVALIDATE_ACKNOWLEDGE then .error (.assertionError, st)
      else
        let (h, d) := st.node.dir.has p.page
        let st := st.withDir d
        do
          let st ← if h then pure st else do
            let st ← exec fuel hm (.dirAdd p.page) st
            let d ← elift st (st.node.dir.add_presence p.page st.node.name)
            pure (st.withDir d)
          let d ← elift st (st.node.dir.erase_presence p.page p.source)
          let st := st.withDir d
          let holders ← elift st (st.node.dir.copy_holders p.page)
          if holders.length = 1 then do
            let d ← elift st (st.node.dir.dirty p.page)
            let d ← elift st (d.erase_presence p.page st.node.name)
            match p.embedded with
            | none => .error (.assertionError, st)
            | some e => do
              let d ← elift st (d.add_presence p.page e)
              let st ← exec fuel hm (.message ⟨Packet.READ_INVALIDATE_ACKNOWLEDGE, p.page, st.node.name, e, none⟩) (st.withDir d)
              if p.page ∈ st.node.frozen then
                .ok { st with node :=
                  { st.node with frozen := st.node.frozen.erase p.page } }
              else .error (.keyError, st)
          else .ok st
    | .eviction_save p =>
      if p.action ≠ Packet.EVICTION_SAVE then .error (.assertionError, st)
      else
        let (h, d) := st.node.dir.has p.page
        let st := st.withDir d
        if h then .error (.assertionError, st)
        else do
          let st ← exec fuel hm (.dirAdd p.page) st
          let d ← elift st (st.node.dir.dirty p.page)
          let d ← elift st (d.erase_presence p.page p.source)
          let d ← elift st (d.add_presence p.page st.node.name)
          .ok (st.withDir d)
    | .eviction_notice p =>
      if p.action ≠ Packet.EVICTION_NOTICE then .error (.assertionError, st)
      else
        let (h, d) := st.node.dir.has p.page
        let st := st.withDir d
        if h then do
          let d ← elift st (st.node.dir.erase_presence p.page p.source)
          .ok (st.withDir d)
        else .error (.assertionError, st)
    | .send_home page =>
      match List.lookup page hm with
      | none => .error (.keyError, st)
      | some h =>
        exec fuel hm (.message ⟨Packet.EVICTION_SAVE, page, st.node.name, h, none⟩) st
    | .notify_home page =>
      match List.lookup page hm with
      | none => .error (.keyError, st)
      | some h =>
        exec fuel hm (.message ⟨Packet.EVICTION_NOTICE, page, st.node.name, h, none⟩) st
    | .dirAdd page => do
      let st ← exec fuel hm .dirEvict st
      let d := st.node.dir.setFlag page 1
      .ok (st.withDir { d with lru := d.lru ++ [page] })
    | .dirEvict =>
      let cnt := (st.node.dir.flags.filter (fun kv => kv.1 != 0)).length
      if cnt = st.node.dir.size then
        match st.node.dir.lru with
        | [] => .error (.indexError, st)
        | v :: rest => exec fuel hm (.evictLoop v) (st.withDir { st.node.dir with lru := rest })
      else .ok st
    | .evictLoop picked =>
      if picked ∈ st.node.dir.homed_pages then
        let d := { st.node.dir with lru := st.node.dir.lru ++ [picked] }
        match d.lru with
        | [] => .error (.indexError, st)
        | v :: rest => exec fuel hm (.evictLoop v) (st.withDir { d with lru := rest })
      else
        let (f, d) := st.node.dir.getFlag picked
        let st := st.withDir d
        do
          let st ← if f = 2 then exec fuel hm (.send_home picked) st
                   else exec fuel hm (.notify_home picked) st
          .ok (st.withDir (st.node.dir.setFlag picked 0))
    | .operation inputs output =>
      if st.node.locked ≠ [] then .error (.assertionError, st)
      else
        let st : St := { st with node := { st.node with locked := inputs ++ [output] } }
        exec fuel hm (.opLoop inputs output) st
    | .opLoop inputs output =>
      match inputs with
      | [] => exec fuel hm (.opOutput output) st
      | ip :: rest =>
        let (h, d) := st.node.dir.has ip
        let st := st.withDir d
        if h then exec fuel hm (.opLoop rest output) st
        else if ip = output then exec fuel hm (.opLoop rest output) st
        else
          match List.lookup ip hm with
          | none => .error (.keyError, st)
          | some hn => do
            let st ← exec fuel hm (.message ⟨Packet.READ_MISS, ip, st.node.name, hn, none⟩) st
            exec fuel hm (.opLoop rest output) st
    | .opOutput output =>
      match List.lookup output hm with
      | none => .error (.keyError, st)
      | some hn =>
        let (h, d) := st.node.dir.has output
        let st := st.withDir d
        if h then
          let (m, d) := st.node.dir.is_modified output
          let st := st.withDir d
          if m then do
            let n ← elift st (tryOperation st.node)
            .ok { st with node := n }
          else
            exec fuel hm (.message ⟨Packet.INVALIDATE, output, st.node.name, hn, none⟩) st
        else
          exec fuel hm (.message ⟨Packet.READ_INVALIDATE, output, st.node.name, hn, none⟩) st
    | .dirInit pages =>
      match pages with
      | [] => .ok st
      | pg :: rest => do
        let st ← exec fuel hm (.dirAdd pg) st
        let d ← elift st (st.node.dir.modify pg)
        let d ← elift st (d.add_presence pg st.node.name)
        exec fuel hm (.dirInit rest) (st.withDir d)

/-- Deliver a list of packets through the router, in order
(`for packet in packets: self.router.message(packet)`). -/
def execList (fuel : Nat) (hm : List (Nat × Nat)) : List Packet → St → Except (Err × St) St
  | [], st => .ok st
  | p :: rest, st => do
    let st ← exec fuel hm (.message p) st
    execList fuel hm rest st

/-- `Node.cycle`: start the next operation when idle, then re-dispatch the
snapshot of the awaiting queue, then dispatch the freshly delivered packets.
Returns the new node state and the packets handed to the NoC. -/
def nodeCycle (fuel : Nat) (hm : List (Nat × Nat)) (s : NodeState)
    (packets : List Packet) : Except (Err × St) (NodeState × List (Packet × Nat)) := do
  let st0 : St := { node := s, sends := [], emitted := [] }
  let st1 ←
    match s.locked, s.program with
    | [], op :: restProg =>
      match op.getLast? with
      | none => .error (.indexError, { st0 with node := { s with program := restProg } })
      | some out =>
        exec fuel hm (.operation op.dropLast out)
          { st0 with node := { s with program := restProg } }
    | _, _ => .ok st0
  let aw := st1.node.awaiting
  let st2 ← execList fuel hm aw { st1 with node := { st1.node with awaiting := [] } }
  let st3 ← execList fuel hm packets st2
  .ok (st3.node, st3.sends)

/-- The state of the whole NoC: cycle counter, in-transit queue of
(packet, next-hop) pairs, the nodes in insertion order and the page-to-home
map. -/
structure NoCState where
  cycle_counter : Nat
  in_transit : List (Packet × Nat)
  nodes : List (Nat × NodeState)
  home : List (Nat × Nat)
deriving DecidableEq

/-- Visit the nodes in order: each receives the packets of the snapshot whose
hop-destination is its name; its sends are appended to the live in-transit
queue.  Also returns the per-node delivery log. -/
def nocVisit (fuel : Nat) (hm : List (Nat × Nat)) (snapshot : List (Packet × Nat)) :
    List (Nat × NodeState) → List (Packet × Nat) →
    Except Err (List (Nat × NodeState) × List (Packet × Nat) × List (Nat × List Packet))
  | [], transit => .ok ([], transit, [])
  | (n, ns) :: rest, transit =>
    let pk := (snapshot.filter (fun q => q.2 = n)).map Prod.fst
    match nodeCycle fuel hm ns pk with
    | .error e => .error e.1
    | .ok (ns2, sends) =>
      match nocVisit fuel hm snapshot rest (transit ++ sends) with
      | .error e => .error e
      | .ok (rs, t, dl) => .ok ((n, ns2) :: rs, t, (n, pk) :: dl)

/-- `NoC.cycle`: snapshot and clear the in-transit queue, visit every node,
increment the cycle counter.  Also returns the delivery log (which node
received which packets this cycle). -/
def nocCycle (fuel : Nat) (s : NoCState) :
    Except Err (NoCState × List (Nat × List Packet)) :=
  let snapshot := s.in_transit
  match nocVisit fuel s.home snapshot s.nodes [] with
  | .error e => .error e
  | .ok (nodes2, transit2, dl) =>
    let s2 := { s with in_transit := transit2 }
    let s2 := { s2 with nodes := nodes2 }
    .ok ({ s2 with cycle_counter := s.cycle_counter + 1 }, dl)

/-- The construction parameters of one node (`NoC.node` arguments). -/
structure NodeSpec where
  name : Nat
  size : Nat
  table : List (Nat × Nat)
  homed_pages : List Nat
  program : List (List Nat)
deriving DecidableEq

/-- `Node.__init__` / `Directory.__init__`: build the empty directory (with a
presence key per homed page), then for each homed page add it, mark it
MODIFIED and record the node's own presence.  The home map passed in is the
one the NoC has built so far (a node is registered only after construction).
Returns the node together with any packets emitted during construction. -/
def mkNode (fuel : Nat) (hm : List (Nat × Nat)) (spec : NodeSpec) :
    Except Err (NodeState × List (Packet × Nat)) :=
  let d0 : Directory := ⟨spec.name, spec.size, spec.homed_pages, [], [], spec.homed_pages.map (fun p => (p, []))⟩
  let s0 : NodeState := ⟨spec.name, spec.table, d0, spec.program, [], [], []⟩
  match exec fuel hm (.dirInit spec.homed_pages) { node := s0, sends := [], emitted := [] } with
  | .error e => .error e.1
  | .ok st => .ok (st.node, st.sends)

/-- `NoC()` followed by a sequence of `NoC.node` calls: each spec constructs a
node against the home map built so far, then registers its homed pages
(overwriting duplicates, as the Python dict does). -/
def mkNoC (fuel : Nat) : List NodeSpec → NoCState → Except Err NoCState
  | [], s => .ok s
  | spec :: rest, s =>
    match mkNode fuel s.home spec with
    | .error e => .error e
    | .ok (ns, sends) =>
      let s2 := { s with nodes := setEntry s.nodes spec.name ns }
      let s2 := { s2 with in_transit := s.in_transit ++ sends }
      mkNoC fuel rest { s2 with home := spec.homed_pages.foldl (fun m p => setEntry m p spec.name) s.home }

/-- The freshly constructed NoC for a list of node specifications. -/
def buildNoC (fuel : Nat) (specs : List NodeSpec) : Except Err NoCState :=
  mkNoC fuel specs { cycle_counter := 0, in_transit := [], nodes := [], home := [] }

/-- A state is reachable from `s` when it arises by zero or more successful
`NoC.cycle` invocations (a cycle that raises aborts the run and yields no new
state). -/
inductive Reach : NoCState → NoCState → Prop
  | refl (s : NoCState) : Reach s s
  | step {s t t' : NoCState} {fuel : Nat} {dl : List (Nat × List Packet)} :
      Reach s t → nocCycle fuel t = .ok (t', dl) → Reach s t'

/-- The number of nodes of a NoC state holding the given page in MODIFIED
state. -/
def modifiedCount (s : NoCState) (page : Nat) : Nat :=
  (s.nodes.filter (fun q => q.2.dir.flagVal page == 2)).length

/-! ## Observations used by the theorems -/

/-- The pages a directory currently holds (flag not INVALID): the resident
set of the specification. -/
def resident (d : Directory) : List Nat :=
  (d.flags.filter (fun kv => kv.2 != 0)).map Prod.fst


/-! ## Association-list and directory lemmas -/

theorem lookup_append {α : Type} (q : Nat) (l1 l2 : List (Nat × α)) :
    List.lookup q (l1 ++ l2) =
      (match List.lookup q l1 with | some v => some v | none => List.lookup q l2) := by
  induction l1 with
  | nil => rfl
  | cons a t ih =>
    rcases a with ⟨k, v⟩
    simp only [List.cons_append, List.lookup]
    cases hqk : (q == k) with
    | false => simpa using ih
    | true => rfl

theorem lookup_setEntry_self {α : Type} (l : List (Nat × α)) (p : Nat) (v : α) :
    List.lookup p (setEntry l p v) = some v := by
  induction l with
  | nil => simp [setEntry, List.lookup]
  | cons a t ih =>
    rcases a with ⟨k, w⟩
    by_cases h : k = p
    · simp [setEntry, h, List.lookup]
    · have h2 : (p == k) = false := beq_eq_false_iff_ne.mpr (fun he => h he.symm)
      simp only [setEntry, if_neg h, List.lookup, h2, ih]

theorem lookup_setEntry_other {α : Type} (l : List (Nat × α)) (p q : Nat) (v : α)
    (h : q ≠ p) : List.lookup q (setEntry l p v) = List.lookup q l := by
  induction l with
  | nil =>
    have h2 : (q == p) = false := beq_eq_false_iff_ne.mpr h
    simp [setEntry, List.lookup, h2]
  | cons a t ih =>
    rcases a with ⟨k, w⟩
    by_cases hk : k = p
    · subst hk
      have h2 : (q == k) = false := beq_eq_false_iff_ne.mpr h
      simp [setEntry, List.lookup, h2]
    · simp only [setEntry, if_neg hk, List.lookup, ih]

namespace Directory

theorem getFlag_fst (d : Directory) (p : Nat) : (d.getFlag p).1 = d.flagVal p := by
  unfold getFlag flagVal
  cases List.lookup p d.flags <;> rfl

theorem getFlag_flagVal (d : Directory) (p q : Nat) :
    (d.getFlag p).2.flagVal q = d.flagVal q := by
  unfold getFlag flagVal
  cases hL : List.lookup p d.flags with
  | some v => rfl
  | none =>
    simp only [lookup_append]
    cases hq : List.lookup q d.flags with
    | some w => simp
    | none =>
      by_cases h : q = p
      · subst h
        simp [hL, hq, List.lookup]
      · have h2 : (q == p) = false := beq_eq_false_iff_ne.mpr h
        simp [hq, List.lookup, h2]

theorem getFlag_lru (d : Directory) (p : Nat) : (d.getFlag p).2.lru = d.lru := by
  unfold getFlag
  cases List.lookup p d.flags <;> rfl

theorem getFlag_presence (d : Directory) (p : Nat) : (d.getFlag p).2.presence = d.presence := by
  unfold getFlag
  cases List.lookup p d.flags <;> rfl

theorem getFlag_name (d : Directory) (p : Nat) : (d.getFlag p).2.name = d.name := by
  unfold getFlag
  cases List.lookup p d.flags <;> rfl

theorem getFlag_size (d : Directory) (p : Nat) : (d.getFlag p).2.size = d.size := by
  unfold getFlag
  cases List.lookup p d.flags <;> rfl

theorem getFlag_homed (d : Directory) (p : Nat) :
    (d.getFlag p).2.homed_pages = d.homed_pages := by
  unfold getFlag
  cases List.lookup p d.flags <;> rfl

theorem has_fst (d : Directory) (p : Nat) : (d.has p).1 = (d.flagVal p != 0) := by
  unfold has
  rcases hg : d.getFlag p with ⟨v, d2⟩
  have hv : v = d.flagVal p := by rw [← getFlag_fst d p, hg]
  dsimp only
  rw [hv]

theorem has_snd (d : Directory) (p : Nat) : (d.has p).2 = (d.getFlag p).2 := rfl

theorem is_modified_fst (d : Directory) (p : Nat) :
    (d.is_modified p).1 = (d.flagVal p == 2) := by
  unfold is_modified
  rcases hg : d.getFlag p with ⟨v, d2⟩
  have hv : v = d.flagVal p := by rw [← getFlag_fst d p, hg]
  dsimp only
  rw [hv]

theorem is_modified_snd (d : Directory) (p : Nat) :
    (d.is_modified p).2 = (d.getFlag p).2 := rfl

theorem setFlag_flagVal_self (d : Directory) (p v : Nat) :
    (d.setFlag p v).flagVal p = v := by
  unfold setFlag flagVal
  simp [lookup_setEntry_self]

theorem setFlag_flagVal_other (d : Directory) (p v q : Nat) (h : q ≠ p) :
    (d.setFlag p v).flagVal q = d.flagVal q := by
  unfold setFlag flagVal
  simp [lookup_setEntry_other _ _ _ _ h]

theorem setFlag_lru (d : Directory) (p v : Nat) : (d.setFlag p v).lru = d.lru := rfl

theorem setFlag_presence (d : Directory) (p v : Nat) :
    (d.setFlag p v).presence = d.presence := rfl

theorem setFlag_name (d : Directory) (p v : Nat) : (d.setFlag p v).name = d.name := rfl

theorem setFlag_size (d : Directory) (p v : Nat) : (d.setFlag p v).size = d.size := rfl

theorem setFlag_homed (d : Directory) (p v : Nat) :
    (d.setFlag p v).homed_pages = d.homed_pages := rfl

theorem dirty_ok (d d' : Directory) (p : Nat) (h : d.dirty p = .ok d') :
    d.flagVal p ≠ 0 ∧ d' = (d.getFlag p).2.setFlag p 0 := by
  unfold dirty at h
  rcases hh : d.has p with ⟨hb, d2⟩
  rw [hh] at h
  dsimp only at h
  cases hb with
  | false => simp at h
  | true =>
    simp only [if_pos] at h
    have hfst : (d.has p).1 = true := by rw [hh]
    rw [has_fst] at hfst
    simp only [bne_iff_ne, ne_eq] at hfst
    refine ⟨hfst, ?_⟩
    have h2 : d2 = (d.getFlag p).2 := by rw [← has_snd, hh]
    cases h
    rw [h2]

theorem dirty_err (d : Directory) (p : Nat) (h : d.flagVal p = 0) :
    d.dirty p = .error .assertionError := by
  unfold dirty
  rcases hh : d.has p with ⟨hb, d2⟩
  have hfst : (d.has p).1 = (d.flagVal p != 0) := has_fst d p
  rw [hh, h] at hfst
  simp only at hfst
  dsimp only
  rw [hfst]
  rfl

theorem modify_ok (d d' : Directory) (p : Nat) (h : d.modify p = .ok d') :
    d.flagVal p ≠ 0 ∧ d' = (d.getFlag p).2.setFlag p 2 := by
  unfold modify at h
  rcases hh : d.has p with ⟨hb, d2⟩
  rw [hh] at h
  dsimp only at h
  cases hb with
  | false => simp at h
  | true =>
    simp only [if_pos] at h
    have hfst : (d.has p).1 = true := by rw [hh]
    rw [has_fst] at hfst
    simp only [bne_iff_ne, ne_eq] at hfst
    refine ⟨hfst, ?_⟩
    have h2 : d2 = (d.getFlag p).2 := by rw [← has_snd, hh]
    cases h
    rw [h2]

theorem share_ok (d d' : Directory) (p : Nat) (h : d.share p = .ok d') :
    d.flagVal p ≠ 0 ∧ d' = (d.getFlag p).2.setFlag p 1 := by
  unfold share at h
  rcases hh : d.has p with ⟨hb, d2⟩
  rw [hh] at h
  dsimp only at h
  cases hb with
  | false => simp at h
  | true =>
    simp only [if_pos] at h
    have hfst : (d.has p).1 = true := by rw [hh]
    rw [has_fst] at hfst
    simp only [bne_iff_ne, ne_eq] at hfst
    refine ⟨hfst, ?_⟩
    have h2 : d2 = (d.getFlag p).2 := by rw [← has_snd, hh]
    cases h
    rw [h2]

theorem add_presence_ok (d d' : Directory) (p n : Nat) (h : d.add_presence p n = .ok d') :
    ∃ l, d.presVal p = some l ∧
      d' = { d with presence := setEntry d.presence p (if n ∈ l then l else l ++ [n]) } := by
  unfold add_presence at h
  cases hv : d.presVal p with
  | none => rw [hv] at h; cases h
  | some l =>
    rw [hv] at h
    dsimp only at h
    refine ⟨l, rfl, ?_⟩
    cases h
    rfl

theorem erase_presence_ok (d d' : Directory) (p n : Nat) (h : d.erase_presence p n = .ok d') :
    ∃ l, d.presVal p = some l ∧ n ∈ l ∧
      d' = { d with presence := setEntry d.presence p (l.erase n) } := by
  unfold erase_presence at h
  cases hv : d.presVal p with
  | none => rw [hv] at h; cases h
  | some l =>
    rw [hv] at h
    dsimp only at h
    by_cases hn : n ∈ l
    · rw [if_pos hn] at h
      refine ⟨l, rfl, hn, ?_⟩
      cases h
      rfl
    · rw [if_neg hn] at h
      cases h

theorem copy_holders_ok (d : Directory) (p : Nat) (l : List Nat)
    (h : d.copy_holders p = .ok l) : p ∈ d.homed_pages ∧ d.presVal p = some l := by
  unfold copy_holders at h
  by_cases hp : p ∈ d.homed_pages
  · rw [if_pos hp] at h
    cases hv : d.presVal p with
    | none => rw [hv] at h; cases h
    | some l2 =>
      rw [hv] at h
      dsimp only at h
      cases h
      exact ⟨hp, rfl⟩
  · rw [if_neg hp] at h
    cases h

theorem presVal_setPresence_self (d : Directory) (p : Nat) (l : List Nat) :
    ({ d with presence := setEntry d.presence p l } : Directory).presVal p = some l := by
  unfold presVal
  exact lookup_setEntry_self _ _ _

theorem presVal_setPresence_other (d : Directory) (p q : Nat) (l : List Nat) (h : q ≠ p) :
    ({ d with presence := setEntry d.presence p l } : Directory).presVal q = d.presVal q := by
  unfold presVal
  exact lookup_setEntry_other _ _ _ _ h

end Directory

theorem allHas_fst (d : Directory) (l : List Nat) :
    (allHas d l).1 = l.all (fun p => d.flagVal p != 0) := by
  induction l generalizing d with
  | nil => rfl
  | cons p rest ih =>
    unfold allHas
    rcases hh : d.has p with ⟨hb, d2⟩
    have hfst : hb = (d.flagVal p != 0) := by rw [← Directory.has_fst, hh]
    have hsnd : d2 = (d.getFlag p).2 := by rw [← Directory.has_snd, hh]
    dsimp only
    cases hb with
    | false =>
      rw [if_neg Bool.false_ne_true]
      simp [List.all_cons, ← hfst]
    | true =>
      have hfv : ∀ q, d2.flagVal q = d.flagVal q := by
        intro q
        rw [hsnd, Directory.getFlag_flagVal]
      rw [if_pos rfl, List.all_cons, ← hfst, ih d2, Bool.true_and]
      congr 1
      funext q
      rw [hfv]

theorem allHas_snd_flagVal (d : Directory) (l : List Nat) (q : Nat) :
    (allHas d l).2.flagVal q = d.flagVal q := by
  induction l generalizing d with
  | nil => rfl
  | cons p rest ih =>
    unfold allHas
    rcases hh : d.has p with ⟨hb, d2⟩
    have hsnd : d2 = (d.getFlag p).2 := by rw [← Directory.has_snd, hh]
    dsimp only
    cases hb with
    | false =>
      rw [if_neg Bool.false_ne_true]
      rw [hsnd]
      exact Directory.getFlag_flagVal d p q
    | true =>
      rw [if_pos rfl, ih d2, hsnd]
      exact Directory.getFlag_flagVal d p q

theorem allHas_snd_lru (d : Directory) (l : List Nat) :
    (allHas d l).2.lru = d.lru := by
  induction l generalizing d with
  | nil => rfl
  | cons p rest ih =>
    unfold allHas
    rcases hh : d.has p with ⟨hb, d2⟩
    have hsnd : d2 = (d.getFlag p).2 := by rw [← Directory.has_snd, hh]
    dsimp only
    cases hb with
    | false =>
      rw [if_neg Bool.false_ne_true, hsnd]
      exact Directory.getFlag_lru d p
    | true =>
      rw [if_pos rfl, ih d2, hsnd]
      exact Directory.getFlag_lru d p

theorem allHas_snd_presence (d : Directory) (l : List Nat) :
    (allHas d l).2.presence = d.presence := by
  induction l generalizing d with
  | nil => rfl
  | cons p rest ih =>
    unfold allHas
    rcases hh : d.has p with ⟨hb, d2⟩
    have hsnd : d2 = (d.getFlag p).2 := by rw [← Directory.has_snd, hh]
    dsimp only
    cases hb with
    | false =>
      rw [if_neg Bool.false_ne_true, hsnd]
      exact Directory.getFlag_presence d p
    | true =>
      rw [if_pos rfl, ih d2, hsnd]
      exact Directory.getFlag_presence d p

/-! ## Claim C2 -/

/-- Home-side state for claim C2: node `1` homes page `2`, holds it SHARED and
its presence set is `{1, 0}` (home and the requester), as after serving a
READ_MISS from node `0`. -/
def c2st : St := ⟨⟨1, [(0, 0)], ⟨1, 2, [2], [2], [(2, 1)], [(2, [1, 0])]⟩, [], [], [], []⟩, [], []⟩

/-- The INVALIDATE packet of claim C2, sent by the sharer `0` to the home `1`. -/
def c2pkt : Packet := ⟨Packet.INVALIDATE, 2, 0, 1, none⟩

/-- C2, counterexample evaluation: handling an INVALIDATE whose presence set is
exactly {home, L} makes the home emit a REMOTE_INVALIDATE addressed to itself
(action 6, destination 1 = the home), self-handle it recursively, and crash
with a KeyError while removing the page from the (still empty) frozen set —
instead of emitting no REMOTE_INVALIDATE at all as the claim states. -/
theorem c2_invalidate_emits_self_packet_and_crashes :
    (match exec 50 [] (.invalidate c2pkt) c2st with
     | .error (.keyError, stF) =>
         stF.emitted.map (fun (q : Packet) => (q.action, q.page, q.source, q.destination))
           = [(6, 2, 1, 1), (7, 2, 1, 1), (5, 2, 1, 0)]
         ∧ stF.node.frozen = []
     | _ => False) := by
  constructor <;> rfl

/-! ## Claim C3 -/

/-- Home map for claim C3: pages 5, 6, 7 are homed at node 1. -/
def c3hm : List (Nat × Nat) := [(5, 1), (6, 1), (7, 1)]

/-- Node 0 of claim C3: size 1, homing nothing, empty directory. -/
def c3st : St := ⟨⟨0, [(1, 1)], ⟨0, 1, [], [], [], []⟩, [], [], [], []⟩, [], []⟩

/-- C3, failing-input evaluation: after `add 5` and `add 6` (the latter evicts
page 5, emitting one EVICTION_NOTICE, action 13), the resident set before
`add 7` is `[6]`, whose size equals the node size 1 — so the claim requires
`add 7` to evict — yet `add 7` emits nothing and evicts nothing, leaving two
resident pages `[6, 7]` in a node of size 1: the eviction check of the source
counts the keys of the flags dictionary (pages ever recorded, here 5 and 6)
instead of the pages whose state is not INVALID. -/
theorem c3_add_skips_required_eviction :
    (do
      let s1 ← exec 50 c3hm (.dirAdd 5) c3st
      let s2 ← exec 50 c3hm (.dirAdd 6) s1
      let s3 ← exec 50 c3hm (.dirAdd 7) s2
      pure (resident s2.node.dir, s2.node.dir.size,
            s2.sends.map (fun (q : Packet × Nat) => q.1.action),
            resident s3.node.dir, s3.sends.length - s2.sends.length))
    = .ok ([6], 1, [13], [6, 7], 0) := by
  rfl

/-! ## Claim C4 -/

/-- The two-node NoC of claim C4: node 0 (homing nothing) runs the single
operation `[2]` (output page 2); node 1 homes page 2 and is idle. -/
def c4specs : List NodeSpec := [⟨0, 2, [(1, 1)], [], [[2]]⟩, ⟨1, 2, [(0, 0)], [2], []⟩]

/-- C4, counterexample: after two successful cycles from the freshly
constructed NoC (node 0's READ_INVALIDATE was served by the home through the
sole-holder path, which calls `dirty`), the home's LRU list still records page
2 while the page's state is INVALID — the LRU list is not the set of resident
pages, and `dirty` did not remove the page from it. -/
theorem c4_reachable_lru_not_resident :
    (do
      let s0 ← buildNoC 50 c4specs
      let (s1, _) ← nocCycle 50 s0
      let (s2, _) ← nocCycle 50 s1
      pure (((List.lookup 1 s2.nodes).map
        (fun (n : NodeState) => (n.dir.lru, n.dir.flagVal 2, resident n.dir))).getD ([], 99, [])))
    = .ok ([2], 0, []) := by
  rfl

/-- C4, amended claim: `Directory.dirty` leaves the LRU list unchanged, so the
LRU list is not an invariant record of the resident pages: in the reachable
state of `c4specs` after two cycles the home's LRU list records the INVALID
page 2. -/
theorem c4_dirty_keeps_lru_and_violation :
    (∀ (d d' : Directory) (p : Nat), d.dirty p = .ok d' → d'.lru = d.lru)
    ∧ (do
        let s0 ← buildNoC 50 c4specs
        let (s1, _) ← nocCycle 50 s0
        let (s2, _) ← nocCycle 50 s1
        pure (((List.lookup 1 s2.nodes).map
          (fun (n : NodeState) => (n.dir.lru, n.dir.flagVal 2))).getD ([], 99)))
      = .ok ([2], 0) := by
  constructor
  · intro d d' p h
    obtain ⟨-, h2⟩ := Directory.dirty_ok d d' p h
    rw [h2, Directory.setFlag_lru, Directory.getFlag_lru]
  · rfl

/-- Concrete directory for the C4 witness: page 2 held SHARED, LRU `[2]`. -/
def c4d0 : Directory := ⟨0, 1, [], [2], [(2, 1)], []⟩

/-- The result of `c4d0.dirty 2`. -/
def c4d1 : Directory := ⟨0, 1, [], [2], [(2, 0)], []⟩

/-- Witness for the amended C4 claim at a concrete input. -/
theorem c4_dirty_keeps_lru_witness :
    Directory.dirty c4d0 2 = .ok c4d1 ∧ c4d1.lru = c4d0.lru :=
  ⟨by rfl, c4_dirty_keeps_lru_and_violation.1 c4d0 c4d1 2 (by rfl)⟩

/-! ## Claim C9 -/

/-- C9: a packet whose action is not one of the fourteen kinds, delivered to
its destination node, makes `handle` raise — but the raised error is the
`UnboundLocalError` escaping `Packet.__repr__` while the diagnostic message is
being formatted (the repr chain assigns no name to an unknown action), not a
`ValueError` naming the packet and the node.  The state at the raise is the
entry state: the failed call leaves the node unchanged. -/
theorem c9_unknown_action_raises_unbound_local :
    ∀ (fuel : Nat) (hm : List (Nat × Nat)) (st : St) (p : Packet),
      p.destination = st.node.name → 14 ≤ p.action →
      exec (fuel + 1) hm (.handle p) st = .error (.unboundLocal, st) := by
  intro fuel hm st p hdest hact
  have h0 : p.action ≠ 0 := by omega
  have h1 : p.action ≠ 1 := by omega
  have h2 : p.action ≠ 2 := by omega
  have h3 : p.action ≠ 3 := by omega
  have h4 : p.action ≠ 4 := by omega
  have h5 : p.action ≠ 5 := by omega
  have h6 : p.action ≠ 6 := by omega
  have h7 : p.action ≠ 7 := by omega
  have h8 : p.action ≠ 8 := by omega
  have h9 : p.action ≠ 9 := by omega
  have h10 : p.action ≠ 10 := by omega
  have h11 : p.action ≠ 11 := by omega
  have h12 : p.action ≠ 12 := by omega
  have h13 : p.action ≠ 13 := by omega
  simp [exec, actionName, hdest, h0, h1, h2, h3, h4, h5, h6, h7, h8, h9, h10,
    h11, h12, h13, Packet.READ_MISS, Packet.REPLY, Packet.REMOTE_READ,
    Packet.REMOTE_REPLY, Packet.INVALIDATE, Packet.INVALIDATE_ACKNOWLEDGE,
    Packet.REMOTE_INVALIDATE, Packet.REMOTE_INVALIDATE_ACKNOWLEDGE,
    Packet.READ_INVALIDATE, Packet.READ_INVALIDATE_ACKNOWLEDGE,
    Packet.REMOTE_READ_INVALIDATE, Packet.REMOTE_READ_INVALIDATE_ACKNOWLEDGE,
    Packet.EVICTION_SAVE, Packet.EVICTION_NOTICE]

/-- Node state for the C9 witness. -/
def c9st : St := ⟨⟨7, [], ⟨7, 1, [], [], [], []⟩, [], [], [], []⟩, [], []⟩

/-- Witness for C9 at a concrete unknown action (14). -/
theorem c9_unknown_action_witness :
    exec 5 [] (.handle ⟨14, 0, 0, 7, none⟩) c9st = .error (.unboundLocal, c9st) :=
  c9_unknown_action_raises_unbound_local 4 [] c9st ⟨14, 0, 0, 7, none⟩ (by rfl) (by norm_num)

/-! ## Claim C5 -/

/-- C5: for a node whose locked list is non-empty with last element `output`,
`try_operation` always returns (never raises); it clears the locked list if
and only if every input page (all locked entries but the last) is held in a
non-INVALID state and the output page is held MODIFIED; otherwise the locked
list is unchanged; and in every case the directory observations (each page's
state, the LRU list, the presence sets) and the rest of the node are
unchanged.  On an empty locked list `try_operation` raises IndexError, so a
cleared operation can never be cleared again. -/
theorem c5_try_operation_iff (s s' : NodeState) (output : Nat)
    (hout : s.locked.getLast? = some output)
    (h : tryOperation s = .ok s') :
    ((s'.locked = [] ↔
        ((∀ p ∈ s.locked.dropLast, s.dir.flagVal p ≠ 0) ∧ s.dir.flagVal output = 2))
     ∧ (s'.locked = [] ∨ s'.locked = s.locked)
     ∧ (∀ q, s'.dir.flagVal q = s.dir.flagVal q)
     ∧ s'.dir.lru = s.dir.lru
     ∧ s'.dir.presence = s.dir.presence
     ∧ s'.program = s.program ∧ s'.frozen = s.frozen ∧ s'.awaiting = s.awaiting
     ∧ s'.name = s.name
     ∧ (∀ t : NodeState, t.locked = [] → tryOperation t = .error .indexError)) := by
  have hlNe : s.locked ≠ [] := by
    intro he
    rw [he] at hout
    cases hout
  have hEmpty : ∀ t : NodeState, t.locked = [] → tryOperation t = .error .indexError := by
    intro t ht
    unfold tryOperation
    rw [ht]
    rfl
  unfold tryOperation at h
  rw [hout] at h
  dsimp only at h
  rcases hA : allHas s.dir s.locked.dropLast with ⟨ir, d1⟩
  rw [hA] at h
  have hirv : ir = s.locked.dropLast.all (fun p => s.dir.flagVal p != 0) := by
    rw [← allHas_fst s.dir s.locked.dropLast, hA]
  have hd1 : d1 = (allHas s.dir s.locked.dropLast).2 := by rw [hA]
  have hd1f : ∀ q, d1.flagVal q = s.dir.flagVal q := by
    intro q
    rw [hd1]
    exact allHas_snd_flagVal s.dir _ q
  have hd1l : d1.lru = s.dir.lru := by rw [hd1]; exact allHas_snd_lru s.dir _
  have hd1p : d1.presence = s.dir.presence := by rw [hd1]; exact allHas_snd_presence s.dir _
  rcases hH : d1.has output with ⟨hb, d2⟩
  rw [hH] at h
  dsimp only at h
  have hbv : hb = (s.dir.flagVal output != 0) := by
    rw [← hd1f output, ← Directory.has_fst d1 output, hH]
  have hd2 : d2 = (d1.getFlag output).2 := by rw [← Directory.has_snd d1 output, hH]
  have hd2f : ∀ q, d2.flagVal q = s.dir.flagVal q := by
    intro q
    rw [hd2, Directory.getFlag_flagVal, hd1f]
  have hd2l : d2.lru = s.dir.lru := by rw [hd2, Directory.getFlag_lru, hd1l]
  have hd2p : d2.presence = s.dir.presence := by rw [hd2, Directory.getFlag_presence, hd1p]
  have hAll : (s.locked.dropLast.all (fun p => s.dir.flagVal p != 0) = true) ↔
      (∀ p ∈ s.locked.dropLast, s.dir.flagVal p ≠ 0) := by
    simp [List.all_eq_true]
  cases hb with
  | true =>
    rcases hM : d2.is_modified output with ⟨mb, d3⟩
    rw [if_pos rfl, hM] at h
    dsimp only at h
    have hmv : mb = (s.dir.flagVal output == 2) := by
      rw [← hd2f output, ← Directory.is_modified_fst d2 output, hM]
    have hd3 : d3 = (d2.getFlag output).2 := by
      rw [← Directory.is_modified_snd d2 output, hM]
    have hd3f : ∀ q, d3.flagVal q = s.dir.flagVal q := by
      intro q
      rw [hd3, Directory.getFlag_flagVal, hd2f]
    have hd3l : d3.lru = s.dir.lru := by rw [hd3, Directory.getFlag_lru, hd2l]
    have hd3p : d3.presence = s.dir.presence := by rw [hd3, Directory.getFlag_presence, hd2p]
    cases hir : ir with
    | true =>
      cases hmb : mb with
      | true =>
        rw [hir, hmb] at h
        simp only [Bool.and_true, Bool.true_and, if_pos] at h
        cases h
        refine ⟨?_, Or.inl rfl, hd3f, hd3l, hd3p, rfl, rfl, rfl, rfl, hEmpty⟩
        simp only [true_iff]
        constructor
        · exact hAll.mp (by rw [← hirv, hir])
        · have := hmv
          rw [hmb] at this
          exact (beq_iff_eq.mp this.symm)
      | false =>
        rw [hir, hmb] at h
        simp only [Bool.and_false, Bool.true_and] at h
        rw [if_neg Bool.false_ne_true] at h
        cases h
        refine ⟨?_, Or.inr rfl, hd3f, hd3l, hd3p, rfl, rfl, rfl, rfl, hEmpty⟩
        have hne2 : s.dir.flagVal output ≠ 2 := by
          intro he
          rw [hmb, he] at hmv
          cases hmv
        exact iff_of_false hlNe (fun hc => hne2 hc.2)
    | false =>
      rw [hir] at h
      simp only [Bool.false_and] at h
      rw [if_neg Bool.false_ne_true] at h
      cases h
      refine ⟨?_, Or.inr rfl, hd3f, hd3l, hd3p, rfl, rfl, rfl, rfl, hEmpty⟩
      have hnall : ¬(∀ p ∈ s.locked.dropLast, s.dir.flagVal p ≠ 0) := by
        intro hforall
        have hx : s.locked.dropLast.all (fun p => s.dir.flagVal p != 0) = true :=
          hAll.mpr hforall
        rw [← hirv, hir] at hx
        cases hx
      exact iff_of_false hlNe (fun hc => hnall hc.1)
  | false =>
    rw [if_neg Bool.false_ne_true] at h
    dsimp only at h
    rw [if_neg] at h
    · cases h
      refine ⟨?_, Or.inr rfl, hd2f, hd2l, hd2p, rfl, rfl, rfl, rfl, hEmpty⟩
      have h0 : s.dir.flagVal output = 0 := by
        have hx := hbv.symm
        rw [bne_eq_false_iff_eq] at hx
        exact hx
      exact iff_of_false hlNe (fun hc => by rw [hc.2] at h0; cases h0)
    · simp

/-- Node for the C5 witness: locked `[4, 3]` (input 4 SHARED, output 3
MODIFIED). -/
def c5s : NodeState := ⟨0, [], ⟨0, 2, [], [4, 3], [(4, 1), (3, 2)], []⟩, [], [], [4, 3], []⟩

/-- Result of `tryOperation c5s`: the locked list is cleared. -/
def c5sR : NodeState := ⟨0, [], ⟨0, 2, [], [4, 3], [(4, 1), (3, 2)], []⟩, [], [], [], []⟩

/-- Witness for C5 at a concrete input. -/
theorem c5_try_operation_witness :
    tryOperation c5s = .ok c5sR
    ∧ (∀ p ∈ c5s.locked.dropLast, c5s.dir.flagVal p ≠ 0)
    ∧ c5s.dir.flagVal 3 = 2 :=
  ⟨by rfl,
   ((c5_try_operation_iff c5s c5sR 3 (by rfl) (by rfl)).1.mp (by rfl)).1,
   ((c5_try_operation_iff c5s c5sR 3 (by rfl) (by rfl)).1.mp (by rfl)).2⟩

/-! ## Forward computation lemmas for the directory operations -/

theorem elift_ok {α : Type} (st : St) (a : α) : elift st (.ok a) = .ok a := rfl

namespace Directory

theorem dirty_eq (d : Directory) (p : Nat) (h : d.flagVal p ≠ 0) :
    d.dirty p = .ok ((d.getFlag p).2.setFlag p 0) := by
  unfold dirty
  rcases hh : d.has p with ⟨hb, d2⟩
  have hbv : hb = (d.flagVal p != 0) := by rw [← has_fst d p, hh]
  have hbt : hb = true := by rw [hbv]; exact bne_iff_ne.mpr h
  have hd2 : d2 = (d.getFlag p).2 := by rw [← has_snd d p, hh]
  dsimp only
  rw [hbt, if_pos rfl, hd2]

theorem modify_eq (d : Directory) (p : Nat) (h : d.flagVal p ≠ 0) :
    d.modify p = .ok ((d.getFlag p).2.setFlag p 2) := by
  unfold modify
  rcases hh : d.has p with ⟨hb, d2⟩
  have hbv : hb = (d.flagVal p != 0) := by rw [← has_fst d p, hh]
  have hbt : hb = true := by rw [hbv]; exact bne_iff_ne.mpr h
  have hd2 : d2 = (d.getFlag p).2 := by rw [← has_snd d p, hh]
  dsimp only
  rw [hbt, if_pos rfl, hd2]

theorem share_eq (d : Directory) (p : Nat) (h : d.flagVal p ≠ 0) :
    d.share p = .ok ((d.getFlag p).2.setFlag p 1) := by
  unfold share
  rcases hh : d.has p with ⟨hb, d2⟩
  have hbv : hb = (d.flagVal p != 0) := by rw [← has_fst d p, hh]
  have hbt : hb = true := by rw [hbv]; exact bne_iff_ne.mpr h
  have hd2 : d2 = (d.getFlag p).2 := by rw [← has_snd d p, hh]
  dsimp only
  rw [hbt, if_pos rfl, hd2]

theorem add_presence_eq (d : Directory) (p n : Nat) (l : List Nat)
    (hv : d.presVal p = some l) :
    d.add_presence p n =
      .ok { d with presence := setEntry d.presence p (if n ∈ l then l else l ++ [n]) } := by
  unfold add_presence
  rw [hv]

theorem erase_presence_eq (d : Directory) (p n : Nat) (l : List Nat)
    (hv : d.presVal p = some l) (hn : n ∈ l) :
    d.erase_presence p n =
      .ok { d with presence := setEntry d.presence p (l.erase n) } := by
  unfold erase_presence
  rw [hv]
  dsimp only
  rw [if_pos hn]

theorem copy_holders_eq (d : Directory) (p : Nat) (l : List Nat)
    (hp : p ∈ d.homed_pages) (hv : d.presVal p = some l) :
    d.copy_holders p = .ok l := by
  unfold copy_holders
  rw [if_pos hp, hv]

end Directory


theorem bind_ok_eq {ε α β : Type} (a : α) (f : α → Except ε β) :
    ((Except.ok a : Except ε α) >>= f) = f a := rfl

theorem presVal_of_presence_eq (d1 d2 : Directory) (q : Nat)
    (h : d1.presence = d2.presence) : d1.presVal q = d2.presVal q := by
  unfold Directory.presVal
  rw [h]

theorem flagVal_of_flags_eq (d1 d2 : Directory) (q : Nat)
    (h : d1.flags = d2.flags) : d1.flagVal q = d2.flagVal q := by
  unfold Directory.flagVal
  rw [h]

/-! ## Claim C6 -/

/-- C6: when the home handles a READ_INVALIDATE (no deferral: the page is
neither frozen nor locked) while it is the sole holder (presence exactly
{home}, its own copy valid), it invalidates its own copy, replaces its own
presence entry by the requester L, routes exactly one
READ_INVALIDATE_ACKNOWLEDGE to L, and does not freeze the page. -/
theorem c6_read_invalidate_sole_home (fuel : Nat) (hm : List (Nat × Nat)) (st : St)
    (p : Packet) (next : Nat)
    (hact : p.action = Packet.READ_INVALIDATE)
    (hfr : p.page ∉ st.node.frozen) (hlk : p.page ∉ st.node.locked)
    (hhome : p.page ∈ st.node.dir.homed_pages)
    (hpres : st.node.dir.presVal p.page = some [st.node.name])
    (hflag : st.node.dir.flagVal p.page ≠ 0)
    (hsrc : p.source ≠ st.node.name)
    (htab : List.lookup p.source st.node.table = some next) :
    (match exec (fuel + 2) hm (.read_invalidate p) st with
     | .ok st' =>
         st'.node.dir.flagVal p.page = 0
         ∧ st'.node.dir.presVal p.page = some [p.source]
         ∧ st'.sends = st.sends ++
             [(⟨Packet.READ_INVALIDATE_ACKNOWLEDGE, p.page, st.node.name, p.source, none⟩, next)]
         ∧ st'.node.frozen = st.node.frozen
         ∧ st'.node.locked = st.node.locked
         ∧ st'.node.dir.lru = st.node.dir.lru
         ∧ st'.node.awaiting = st.node.awaiting
     | .error _ => False) := by
  have hcond : ¬(p.page ∈ st.node.frozen ∨ p.page ∈ st.node.locked) := not_or.mpr ⟨hfr, hlk⟩
  have hch : st.node.dir.copy_holders p.page = .ok [st.node.name] :=
    Directory.copy_holders_eq _ _ _ hhome hpres
  have hd1 := Directory.dirty_eq st.node.dir p.page hflag
  have hne : ¬(p.action ≠ Packet.READ_INVALIDATE) := fun hx => hx hact
  have hd1pres : ((st.node.dir.getFlag p.page).2.setFlag p.page 0).presence
      = st.node.dir.presence := by
    rw [Directory.setFlag_presence, Directory.getFlag_presence]
  have hd1presVal : ((st.node.dir.getFlag p.page).2.setFlag p.page 0).presVal p.page
      = some [st.node.name] := by
    rw [presVal_of_presence_eq _ st.node.dir _ hd1pres]
    exact hpres
  have herase := Directory.erase_presence_eq _ p.page st.node.name [st.node.name]
    hd1presVal (by simp)
  have hadd := Directory.add_presence_eq
    ({ (st.node.dir.getFlag p.page).2.setFlag p.page 0 with
       presence := setEntry ((st.node.dir.getFlag p.page).2.setFlag p.page 0).presence
         p.page [] } : Directory)
    p.page p.source []
    (by unfold Directory.presVal; exact lookup_setEntry_self _ _ _)
  simp only [exec, if_neg hne, if_neg hcond, hch, elift_ok, bind_ok_eq, hd1, herase, hadd,
    List.erase_cons_head, List.length_cons, List.length_nil, List.mem_singleton, and_self,
    if_true, Nat.zero_add, St.withDir, List.not_mem_nil, if_neg hsrc, htab, if_false,
    List.nil_append, hadd]
  refine ⟨?_, ?_, trivial, trivial, trivial, ?_, trivial⟩
  · exact (flagVal_of_flags_eq _ ((st.node.dir.getFlag p.page).2.setFlag p.page 0) _ rfl).trans
      (Directory.setFlag_flagVal_self _ _ _)
  · show Directory.presVal _ p.page = some [p.source]
    unfold Directory.presVal
    exact lookup_setEntry_self _ _ _
  · exact (Directory.setFlag_lru _ _ _).trans (Directory.getFlag_lru _ _)

/-- State for the C6 witness: node 1 is home of page 2, sole holder in
MODIFIED state. -/
def c6wst : St := ⟨⟨1, [(0, 0)], ⟨1, 2, [2], [2], [(2, 2)], [(2, [1])]⟩, [], [], [], []⟩, [], []⟩

/-- Witness for C6 at a concrete input. -/
theorem c6_read_invalidate_sole_home_witness :
    (match exec 2 [] (.read_invalidate ⟨Packet.READ_INVALIDATE, 2, 0, 1, none⟩) c6wst with
     | .ok st' =>
         st'.node.dir.flagVal 2 = 0
         ∧ st'.node.dir.presVal 2 = some [0]
         ∧ st'.sends = c6wst.sends ++
             [(⟨Packet.READ_INVALIDATE_ACKNOWLEDGE, 2, c6wst.node.name, 0, none⟩, 0)]
         ∧ st'.node.frozen = c6wst.node.frozen
         ∧ st'.node.locked = c6wst.node.locked
         ∧ st'.node.dir.lru = c6wst.node.dir.lru
         ∧ st'.node.awaiting = c6wst.node.awaiting
     | .error _ => False) :=
  c6_read_invalidate_sole_home 0 [] c6wst ⟨Packet.READ_INVALIDATE, 2, 0, 1, none⟩ 0
    (by rfl) (by simp [c6wst]) (by simp [c6wst]) (by simp [c6wst]) (by rfl) (by decide)
    (by decide) (by rfl)

/-! ## Claim C8 -/

theorem nocVisit_dl (fuel : Nat) (hm : List (Nat × Nat)) (snapshot : List (Packet × Nat)) :
    ∀ (nodes : List (Nat × NodeState)) (transit : List (Packet × Nat))
      (out : List (Nat × NodeState) × List (Packet × Nat) × List (Nat × List Packet)),
      nocVisit fuel hm snapshot nodes transit = .ok out →
      out.2.2 = nodes.map
        (fun q => (q.1, (snapshot.filter (fun r => r.2 = q.1)).map Prod.fst)) := by
  intro nodes
  induction nodes with
  | nil =>
    intro transit out h
    simp only [nocVisit] at h
    cases h
    rfl
  | cons a rest ih =>
    intro transit out h
    rcases a with ⟨n, ns⟩
    simp only [nocVisit] at h
    split at h
    · cases h
    · split at h
      · cases h
      · rename_i hds hv
        cases h
        have hdl := ih _ _ hv
        dsimp only at hdl ⊢
        rw [List.map_cons, hdl]

/-- C8: a successful `NoC.cycle` increments the cycle counter, and the packets
delivered to each node are exactly those of the in-transit queue at entry
whose hop-destination is that node (the cycle snapshots and clears the queue
before visiting any node), so a pair appended to the queue while the counter
equals k is delivered no earlier than a later invocation, at counter k+1 or
more. -/
theorem c8_cycle_delivers_entry_queue (fuel : Nat) (s s' : NoCState)
    (dl : List (Nat × List Packet))
    (h : nocCycle fuel s = .ok (s', dl)) :
    s'.cycle_counter = s.cycle_counter + 1
    ∧ dl = s.nodes.map
        (fun q => (q.1, (s.in_transit.filter (fun r => r.2 = q.1)).map Prod.fst)) := by
  simp only [nocCycle] at h
  split at h
  · cases h
  · rename_i out nodes2 transit2 dl0 hv
    cases h
    exact ⟨rfl, nocVisit_dl fuel s.home s.in_transit s.nodes [] _ hv⟩

/-- One-node NoC for the C8 witness: idle node, empty in-transit queue. -/
def c8noc : NoCState := ⟨3, [], [(0, ⟨0, [], ⟨0, 1, [], [], [], []⟩, [], [], [], []⟩)], []⟩

/-- The state after one cycle of `c8noc`. -/
def c8noc2 : NoCState := ⟨4, [], [(0, ⟨0, [], ⟨0, 1, [], [], [], []⟩, [], [], [], []⟩)], []⟩

/-- Witness for C8 at a concrete input. -/
theorem c8_cycle_witness :
    nocCycle 5 c8noc = .ok (c8noc2, [(0, [])])
    ∧ c8noc2.cycle_counter = c8noc.cycle_counter + 1
    ∧ [(0, ([] : List Packet))] = c8noc.nodes.map
        (fun q => (q.1, (c8noc.in_transit.filter (fun r => r.2 = q.1)).map Prod.fst)) :=
  ⟨by rfl,
   (c8_cycle_delivers_entry_queue 5 c8noc c8noc2 [(0, [])] (by rfl)).1,
   (c8_cycle_delivers_entry_queue 5 c8noc c8noc2 [(0, [])] (by rfl)).2⟩


/-! ## Claim C10: initial directory state -/

theorem lookup_map_none {α : Type} (l : List Nat) (f : Nat → α) (q : Nat) (h : q ∉ l) :
    List.lookup q (l.map (fun p => (p, f p))) = none := by
  induction l with
  | nil => rfl
  | cons a t ih =>
    have hqa : (q == a) = false := beq_eq_false_iff_ne.mpr (fun he => h (he ▸ List.mem_cons_self a t))
    simp only [List.map_cons, List.lookup, hqa]
    exact ih (fun hq => h (List.mem_cons_of_mem a hq))

theorem lookup_map_mem {α : Type} (l : List Nat) (f : Nat → α) (q : Nat) (h : q ∈ l) :
    List.lookup q (l.map (fun p => (p, f p))) = some (f q) := by
  induction l with
  | nil => cases h
  | cons a t ih =>
    by_cases hqa : q = a
    · subst hqa
      simp [List.lookup]
    · have hf : (q == a) = false := beq_eq_false_iff_ne.mpr hqa
      simp only [List.map_cons, List.lookup, hf]
      exact ih (by rcases List.mem_cons.mp h with h1 | h2; exact absurd h1 hqa; exact h2)

theorem setEntry_append_fresh {α : Type} (l : List (Nat × α)) (p : Nat) (v : α)
    (h : p ∉ l.map Prod.fst) : setEntry l p v = l ++ [(p, v)] := by
  induction l with
  | nil => rfl
  | cons a t ih =>
    rcases a with ⟨k, w⟩
    have hk : k ≠ p := by
      intro he
      exact h (by simp [he])
    simp only [setEntry, if_neg hk, List.cons_append]
    rw [ih (fun hm => h (by simp only [List.map_cons]; exact List.mem_cons_of_mem _ hm))]

theorem setEntry_update_last {α : Type} (l : List (Nat × α)) (p : Nat) (w v : α)
    (h : p ∉ l.map Prod.fst) : setEntry (l ++ [(p, w)]) p v = l ++ [(p, v)] := by
  induction l with
  | nil => simp [setEntry]
  | cons a t ih =>
    rcases a with ⟨k, u⟩
    have hk : k ≠ p := by
      intro he
      exact h (by simp [he])
    show setEntry ((k, u) :: (t ++ [(p, w)])) p v = (k, u) :: (t ++ [(p, v)])
    unfold setEntry
    rw [if_neg hk, ih (fun hm => h (by simp only [List.map_cons]; exact List.mem_cons_of_mem _ hm))]

theorem setEntry_map_nodup {α : Type} (l : List Nat) (f : Nat → α) (p : Nat) (v : α)
    (hnd : l.Nodup) (hp : p ∈ l) :
    setEntry (l.map (fun q => (q, f q))) p v
      = l.map (fun q => (q, if q = p then v else f q)) := by
  induction l with
  | nil => cases hp
  | cons a t ih =>
    by_cases hap : a = p
    · subst hap
      simp only [List.map_cons, setEntry, if_pos rfl, if_pos]
      have hat : a ∉ t := (List.nodup_cons.mp hnd).1
      congr 1
      apply List.map_congr_left
      intro q hq
      have : q ≠ a := fun he => hat (he ▸ hq)
      rw [if_neg this]
    · have hpt : p ∈ t := by
        rcases List.mem_cons.mp hp with h1 | h2
        · exact absurd h1.symm hap
        · exact h2
      simp only [List.map_cons, setEntry, if_neg hap, if_neg hap]
      rw [ih (List.nodup_cons.mp hnd).2 hpt]

theorem bind_error_eq {ε α β : Type} (e : ε) (f : α → Except ε β) :
    ((Except.error e : Except ε α) >>= f) = .error e := rfl

theorem map_fst_map_pair {α : Type} (l : List Nat) (f : Nat → α) :
    (l.map (fun q => (q, f q))).map Prod.fst = l := by
  rw [List.map_map]
  exact List.map_id l

theorem getFlag_of_lookup_some (d : Directory) (p v : Nat)
    (h : List.lookup p d.flags = some v) : d.getFlag p = (v, d) := by
  unfold Directory.getFlag
  rw [h]

/-- The node state during construction after the homed pages in `done` have
been initialised (used only to prove claim C10). -/
def initPartial (name size : Nat) (table : List (Nat × Nat)) (program : List (List Nat))
    (homed done : List Nat) : St :=
  ⟨⟨name, table,
     ⟨name, size, homed, done, done.map (fun p => (p, 2)),
      homed.map (fun q => (q, if q ∈ done then [name] else []))⟩,
     program, [], [], []⟩, [], []⟩

theorem dirInit_go (hm : List (Nat × Nat)) (name size : Nat) (table : List (Nat × Nat))
    (program : List (List Nat)) (homed : List Nat)
    (hnd : homed.Nodup) (hsz : homed.length ≤ size) :
    ∀ (pending done : List Nat) (fuel : Nat) (res : St),
      homed = done ++ pending →
      exec fuel hm (.dirInit pending) (initPartial name size table program homed done)
        = .ok res →
      res = initPartial name size table program homed homed := by
  intro pending
  induction pending with
  | nil =>
    intro done fuel res hsplit h
    cases fuel with
    | zero => cases h
    | succ F =>
      simp only [exec] at h
      cases h
      rw [hsplit, List.append_nil]
  | cons p rest ih =>
    intro done fuel res hsplit h
    have hpdone : p ∉ done := by
      intro hmem
      have hx := hsplit ▸ hnd
      rw [List.nodup_append] at hx
      exact hx.2.2 hmem (List.mem_cons_self p rest)
    have hph : p ∈ homed := by
      rw [hsplit]
      exact List.mem_append_right done (List.mem_cons_self p rest)
    have hlen : done.length < size := by
      have hx : homed.length = done.length + (rest.length + 1) := by
        rw [hsplit, List.length_append, List.length_cons]
      omega
    have hcnt :
        ¬((List.filter (fun kv => kv.1 != 0) (done.map (fun q => (q, 2)))).length
          = size) := by
      have h1 := List.length_filter_le (fun kv => kv.1 != 0)
        (done.map (fun q => (q, (2 : Nat))))
      rw [List.length_map] at h1
      omega
    have hflags1 : setEntry (done.map (fun q => ((q : Nat), (2 : Nat)))) p 1
        = done.map (fun q => (q, 2)) ++ [(p, 1)] :=
      setEntry_append_fresh _ _ _ (by rw [map_fst_map_pair]; exact hpdone)
    have hlk1 : List.lookup p (done.map (fun q => ((q : Nat), (2 : Nat))) ++ [(p, 1)])
        = some 1 := by
      rw [lookup_append, lookup_map_none _ _ _ hpdone]
      simp [List.lookup]
    cases fuel with
    | zero => cases h
    | succ F =>
      simp only [exec, initPartial, bind_error_eq, bind_ok_eq, elift_ok] at h
      cases F with
      | zero =>
        simp only [exec, bind_error_eq] at h
        cases h
      | succ F1 =>
        cases F1 with
        | zero =>
          simp only [exec, bind_error_eq, bind_ok_eq] at h
          cases h
        | succ F2 =>
          have hAdd : exec (F2 + 1 + 1) hm (.dirAdd p)
              (initPartial name size table program homed done)
              = .ok ⟨⟨name, table,
                  ⟨name, size, homed, done ++ [p],
                   done.map (fun q => (q, 2)) ++ [(p, 1)],
                   homed.map (fun q => (q, if q ∈ done then [name] else []))⟩,
                  program, [], [], []⟩, [], []⟩ := by
            simp only [exec, initPartial, bind_ok_eq, bind_error_eq, elift_ok]
            rw [if_neg hcnt]
            simp only [bind_ok_eq, St.withDir, Directory.setFlag]
            rw [hflags1]
          simp only [initPartial] at hAdd
          rw [hAdd] at h
          simp only [bind_ok_eq] at h
          have hMod : (⟨name, size, homed, done ++ [p],
              done.map (fun q => (q, 2)) ++ [(p, 1)],
              homed.map (fun q => (q, if q ∈ done then [name] else []))⟩ : Directory).modify p
              = .ok (⟨name, size, homed, done ++ [p],
              done.map (fun q => (q, 2)) ++ [(p, 2)],
              homed.map (fun q => (q, if q ∈ done then [name] else []))⟩ : Directory) := by
            rw [Directory.modify_eq _ _ (by
              show (Directory.flagVal _ p) ≠ 0
              unfold Directory.flagVal
              dsimp only
              rw [hlk1]
              simp)]
            rw [getFlag_of_lookup_some _ _ 1 (by dsimp only; exact hlk1)]
            unfold Directory.setFlag
            dsimp only
            rw [setEntry_update_last _ _ _ _ (by rw [map_fst_map_pair]; exact hpdone)]
          rw [hMod] at h
          simp only [elift_ok, bind_ok_eq] at h
          have hpv : (⟨name, size, homed, done ++ [p],
              done.map (fun q => (q, 2)) ++ [(p, 2)],
              homed.map (fun q => (q, if q ∈ done then [name] else []))⟩ : Directory).presVal p
              = some [] := by
            unfold Directory.presVal
            dsimp only
            rw [lookup_map_mem _ _ _ hph, if_neg hpdone]
          have hAddP : (⟨name, size, homed, done ++ [p],
              done.map (fun q => (q, 2)) ++ [(p, 2)],
              homed.map (fun q => (q, if q ∈ done then [name] else []))⟩ : Directory).add_presence p name
              = .ok (⟨name, size, homed, done ++ [p],
              done.map (fun q => (q, 2)) ++ [(p, 2)],
              homed.map (fun q => (q, if q ∈ done ++ [p] then [name] else []))⟩ : Directory) := by
            rw [Directory.add_presence_eq _ _ _ [] hpv]
            congr 1
            dsimp only
            rw [if_neg (List.not_mem_nil name), List.nil_append]
            rw [setEntry_map_nodup _ _ _ _ hnd hph]
            congr 1
            apply List.map_congr_left
            intro q hq
            by_cases hqp : q = p
            · subst hqp
              rw [if_pos rfl, if_pos (by simp)]
            · rw [if_neg hqp]
              by_cases hqd : q ∈ done
              · rw [if_pos hqd, if_pos (by simp [hqd])]
              · rw [if_neg hqd, if_neg (by simp [hqd, hqp])]
          rw [hAddP] at h
          simp only [elift_ok, bind_ok_eq] at h
          have hSteq : ((⟨⟨name, table,
              ⟨name, size, homed, done ++ [p],
                done.map (fun q => (q, 2)) ++ [(p, 1)],
                homed.map (fun q => (q, if q ∈ done then [name] else []))⟩,
              program, [], [], []⟩,
              [], []⟩ : St).withDir
              (⟨name, size, homed, done ++ [p],
                done.map (fun q => (q, 2)) ++ [(p, 2)],
                homed.map (fun q => (q, if q ∈ done ++ [p] then [name] else []))⟩ : Directory))
              = initPartial name size table program homed (done ++ [p]) := by
            simp only [St.withDir, initPartial]
            congr 1
            rw [List.map_append]
            rfl
          rw [hSteq] at h
          exact ih (done ++ [p]) (F2 + 1 + 1) res (by rw [hsplit]; simp) h

theorem lookup_map_const {α : Type} (l : List Nat) (c : α) (q : Nat) (h : q ∈ l) :
    List.lookup q (l.map (fun p => (p, c))) = some c :=
  lookup_map_mem l (fun _ => c) q h

theorem lookup_map_const_none {α : Type} (l : List Nat) (c : α) (q : Nat) (h : q ∉ l) :
    List.lookup q (l.map (fun p => (p, c))) = none :=
  lookup_map_none l (fun _ => c) q h

/-- C10: immediately after a node is constructed (duplicate-free homed pages
fitting the directory size), construction emits no packets, the LRU list is
exactly the homed pages, every homed page is held MODIFIED with presence set
exactly the node's own name, and every other page is INVALID with no flags or
presence entry. -/
theorem c10_initial_directory (fuel : Nat) (hm : List (Nat × Nat)) (spec : NodeSpec)
    (ns : NodeState) (sends : List (Packet × Nat))
    (hnd : spec.homed_pages.Nodup) (hsz : spec.homed_pages.length ≤ spec.size)
    (h : mkNode fuel hm spec = .ok (ns, sends)) :
    sends = [] ∧ ns.dir.lru = spec.homed_pages ∧
    (∀ p, p ∈ spec.homed_pages →
      ns.dir.flagVal p = 2 ∧ p ∈ ns.dir.lru ∧ ns.dir.presVal p = some [spec.name]) ∧
    (∀ p, p ∉ spec.homed_pages →
      ns.dir.flagVal p = 0 ∧ List.lookup p ns.dir.flags = none ∧
      List.lookup p ns.dir.presence = none) := by
  simp only [mkNode] at h
  split at h
  · exact Except.noConfusion h
  · rename_i st hst
    injection h with h2
    injection h2 with hA hB
    subst hA
    subst hB
    have hpres : spec.homed_pages.map (fun p => ((p : Nat), ([] : List Nat)))
        = spec.homed_pages.map
            (fun q => (q, if q ∈ ([] : List Nat) then [spec.name] else [])) := by
      apply List.map_congr_left
      intro q hq
      simp
    have hst2 : exec fuel hm (.dirInit spec.homed_pages)
        (initPartial spec.name spec.size spec.table spec.program spec.homed_pages [])
        = .ok st := by
      simp only [initPartial]
      rw [← hpres]
      exact hst
    have hgo := dirInit_go hm spec.name spec.size spec.table spec.program
      spec.homed_pages hnd hsz spec.homed_pages [] fuel st (by simp) hst2
    subst hgo
    dsimp only [initPartial]
    refine ⟨rfl, rfl, ?_, ?_⟩
    · intro p hp
      refine ⟨?_, hp, ?_⟩
      · show (List.lookup p (spec.homed_pages.map (fun q => (q, 2)))).getD 0 = 2
        rw [lookup_map_const _ _ _ hp]
        rfl
      · show List.lookup p (spec.homed_pages.map
            (fun q => (q, if q ∈ spec.homed_pages then [spec.name] else [])))
            = some [spec.name]
        exact (lookup_map_mem spec.homed_pages
          (fun q => if q ∈ spec.homed_pages then [spec.name] else []) p hp).trans
          (by
            show some (if p ∈ spec.homed_pages then [spec.name] else [])
              = some [spec.name]
            rw [if_pos hp])
    · intro p hp
      refine ⟨?_, ?_, ?_⟩
      · show (List.lookup p (spec.homed_pages.map (fun q => (q, 2)))).getD 0 = 0
        rw [lookup_map_const_none _ _ _ hp]
        rfl
      · exact lookup_map_const_none _ _ _ hp
      · exact lookup_map_none spec.homed_pages
          (fun q => if q ∈ spec.homed_pages then [spec.name] else []) p hp

/-- Concrete run of the C10 theorem: node 0 of size 2 homing pages 5 and 9. -/
theorem c10_initial_directory_witness :
    ([5, 9] : List Nat).Nodup ∧
    ((⟨0, 2, [5, 9], [5, 9], [(5, 2), (9, 2)], [(5, [0]), (9, [0])]⟩ : Directory).flagVal 5 = 2
      ∧ (⟨0, 2, [5, 9], [5, 9], [(5, 2), (9, 2)], [(5, [0]), (9, [0])]⟩ : Directory).presVal 9
          = some [0]
      ∧ (⟨0, 2, [5, 9], [5, 9], [(5, 2), (9, 2)], [(5, [0]), (9, [0])]⟩ : Directory).flagVal 7
          = 0) := by
  have h := c10_initial_directory 20 [] ⟨0, 2, [], [5, 9], []⟩
    ⟨0, [], ⟨0, 2, [5, 9], [5, 9], [(5, 2), (9, 2)], [(5, [0]), (9, [0])]⟩, [], [], [], []⟩ []
    (by decide) (by decide) rfl
  exact ⟨by decide, (h.2.2.1 5 (by decide)).1, (h.2.2.1 9 (by decide)).2.2,
    (h.2.2.2 7 (by decide)).1⟩


/-! ## Claim C7: EVICTION_SAVE bookkeeping at the home -/

theorem dirty_of_lookup_some (d : Directory) (p v : Nat) (hv : v ≠ 0)
    (h : List.lookup p d.flags = some v) :
    d.dirty p = .ok (d.setFlag p 0) := by
  rw [Directory.dirty_eq d p (by
    unfold Directory.flagVal
    rw [h]
    simpa using hv)]
  rw [getFlag_of_lookup_some d p v h]

/-- C7: when the home node (not holding the page, with room so no eviction
fires, and with a presence entry containing the packet source) handles an
EVICTION_SAVE packet, the call succeeds: the page is added (appended to the
LRU list) and then marked INVALID, the source is removed from the page's
presence set and the home's own name added, and nothing else of the node
changes. -/
theorem c7_eviction_save (fuel : Nat) (hm : List (Nat × Nat)) (p : Packet) (st : St)
    (l : List Nat)
    (hact : p.action = Packet.EVICTION_SAVE)
    (hnothold : (st.node.dir.has p.page).1 = false)
    (hcnt : ¬((((st.node.dir.has p.page).2.flags.filter (fun kv => kv.1 != 0)).length)
      = (st.node.dir.has p.page).2.size))
    (hpres : st.node.dir.presVal p.page = some l)
    (hsrc : p.source ∈ l) :
    ∃ st', exec (fuel + 1 + 1 + 1) hm (.eviction_save p) st = .ok st' ∧
      st'.node.dir.flagVal p.page = 0 ∧
      p.page ∈ st'.node.dir.lru ∧
      st'.node.dir.presVal p.page
        = some (if st.node.name ∈ l.erase p.source then l.erase p.source
                else l.erase p.source ++ [st.node.name]) ∧
      st'.sends = st.sends ∧ st'.emitted = st.emitted ∧
      st'.node.frozen = st.node.frozen ∧ st'.node.locked = st.node.locked ∧
      st'.node.awaiting = st.node.awaiting ∧ st'.node.program = st.node.program ∧
      st'.node.name = st.node.name := by
  rcases hh : st.node.dir.has p.page with ⟨b, d2⟩
  have hb : b = false := by
    have hx := hnothold
    rw [hh] at hx
    exact hx
  subst hb
  rw [hh] at hcnt
  dsimp only at hcnt
  have hd2 : d2 = (st.node.dir.getFlag p.page).2 := by
    rw [← Directory.has_snd, hh]
  have hd2pres : d2.presence = st.node.dir.presence := by
    rw [hd2]
    exact Directory.getFlag_presence _ _
  have hrun : exec (fuel + 1 + 1 + 1) hm (.eviction_save p) st
      = .ok ⟨⟨st.node.name, st.node.table,
      ⟨d2.name, d2.size, d2.homed_pages, d2.lru ++ [p.page],
       setEntry (setEntry d2.flags p.page 1) p.page 0,
       setEntry (setEntry d2.presence p.page (l.erase p.source)) p.page
         (if st.node.name ∈ l.erase p.source then l.erase p.source
          else l.erase p.source ++ [st.node.name])⟩,
      st.node.program, st.node.frozen, st.node.locked, st.node.awaiting⟩,
     st.sends, st.emitted⟩ := by
    simp only [exec]
    rw [if_neg (show ¬(p.action ≠ Packet.EVICTION_SAVE) from by simp [hact])]
    rw [hh]
    rw [if_neg Bool.false_ne_true]
    simp only [St.withDir, bind_ok_eq, elift_ok, Directory.setFlag]
    rw [if_neg hcnt]
    simp only [bind_ok_eq]
    rw [dirty_of_lookup_some _ p.page 1 (by decide)
      (lookup_setEntry_self d2.flags p.page 1)]
    simp only [Directory.setFlag, elift_ok, bind_ok_eq]
    rw [Directory.erase_presence_eq _ p.page p.source l
      (by
        show List.lookup p.page d2.presence = some l
        rw [hd2pres]
        exact hpres) hsrc]
    simp only [elift_ok, bind_ok_eq]
    rw [Directory.add_presence_eq
      (⟨d2.name, d2.size, d2.homed_pages, d2.lru ++ [p.page],
        setEntry (setEntry d2.flags p.page 1) p.page 0,
        setEntry d2.presence p.page (l.erase p.source)⟩ : Directory)
      p.page st.node.name (l.erase p.source)
      (lookup_setEntry_self d2.presence p.page (l.erase p.source))]
    simp only [elift_ok, bind_ok_eq]
  refine ⟨_, hrun, ?_, ?_, ?_, rfl, rfl, rfl, rfl, rfl, rfl, rfl⟩
  · show (List.lookup p.page (setEntry (setEntry d2.flags p.page 1) p.page 0)).getD 0 = 0
    rw [lookup_setEntry_self]
    rfl
  · show p.page ∈ d2.lru ++ [p.page]
    simp
  · show List.lookup p.page (setEntry (setEntry d2.presence p.page (l.erase p.source)) p.page
        (if st.node.name ∈ l.erase p.source then l.erase p.source
         else l.erase p.source ++ [st.node.name]))
      = some (if st.node.name ∈ l.erase p.source then l.erase p.source
              else l.erase p.source ++ [st.node.name])
    exact lookup_setEntry_self _ _ _

/-- Witness state for C7: home node 1 of size 2, homing page 4 which node 0
currently holds. -/
def c7st : St :=
  ⟨⟨1, [(0, 0)], ⟨1, 2, [4], [], [], [(4, [0])]⟩, [], [], [], []⟩, [], []⟩

/-- Concrete run of the C7 theorem: home 1 receives EVICTION_SAVE(page 4)
from node 0. -/
theorem c7_eviction_save_witness :
    (⟨12, 4, 0, 1, none⟩ : Packet).action = Packet.EVICTION_SAVE ∧
    (c7st.node.dir.has 4).1 = false ∧
    ∃ st', exec 3 [] (.eviction_save ⟨12, 4, 0, 1, none⟩) c7st = .ok st' ∧
      st'.node.dir.flagVal 4 = 0 ∧
      4 ∈ st'.node.dir.lru ∧
      st'.node.dir.presVal 4
        = some (if c7st.node.name ∈ [0].erase 0 then [0].erase 0
                else [0].erase 0 ++ [c7st.node.name]) ∧
      st'.sends = c7st.sends ∧ st'.emitted = c7st.emitted ∧
      st'.node.frozen = c7st.node.frozen ∧ st'.node.locked = c7st.node.locked ∧
      st'.node.awaiting = c7st.node.awaiting ∧
      st'.node.program = c7st.node.program ∧
      st'.node.name = c7st.node.name := by
  refine ⟨by decide, by decide, ?_⟩
  exact c7_eviction_save 0 [] ⟨12, 4, 0, 1, none⟩ c7st [0] (by decide) (by decide)
    (by decide) (by decide) (by decide)

end SimpleNoC
